import Mathlib

/-!
Verification development for the guibender image finder
(`guibender/imagefinder.py`).  The definitions below are a shallow
embedding of the `ImageFinder` class: pure pixel data is modelled with
rational-valued buffers, the OpenCV/autopy library calls are oracle
parameters collected in a `Backend` structure, and the Python control
flow of each method is reproduced faithfully (fallible paths return
`Except`, the unbounded loops are driven by explicit fuel, with `none`
marking a run that does not finish within the given fuel).
-/

namespace Guibender

/-- A raster image: width, height and a (row, column) pixel buffer. -/
structure Img where
  width : ℕ
  height : ℕ
  pix : ℕ → ℕ → ℚ

/-- A surface coordinate `(x, y)` as used by `cv2.minMaxLoc`. -/
abbrev TLoc := ℕ × ℕ

/-- A `Location(x, y)` result as produced by the finder. -/
abbrev Location := ℤ × ℤ

/-- A correlation surface: result of `cv2.matchTemplate`
(width `w = W - w_needle + 1`, height `h`, value at row `y`, column `x`). -/
structure Surface where
  w : ℕ
  h : ℕ
  val : ℕ → ℕ → ℚ

/-- A detected keypoint: an identity tag (standing for Python object
identity, since `cv2.KeyPoint` has no value equality) and its `pt`. -/
structure Keypoint where
  id : ℕ
  pt : ℚ × ℚ
deriving DecidableEq

/-- A 3×3 projective matrix as returned by `cv2.findHomography`;
kept opaque to the matcher, only fed back to `perspectiveTransform`. -/
abbrev Hom := List (List ℚ)

/-- The exceptions that can escape the image finder: `ImageFinderMethodError`
(from `errors.py`) and the `TypeError` that `cv2.minMaxLoc` raises when
`_match_template` hands it `None` instead of a surface. -/
inductive Err where
  | imageFinderMethodError : Err
  | typeError : Err
deriving DecidableEq

/-- Modelled from the spec: the `CVEqualizer` state (module
`cvequalizer.py` is not among the sources).  Only the fields the
image finder reads are kept: the `current` algorithm selections and
the recognized feature algorithm name sets from `algorithms`. -/
structure Equalizer where
  find : String
  tmatch : String
  fdetect : String
  fextract : String
  fmatch : String
  feature_detectors : List String
  feature_extractors : List String
  feature_matchers : List String

/-- Modelled from the spec: `eq.algorithms["template_matchers"]`
(defined in the missing `cvequalizer.py`).  The spec lists the template
sub-methods `sqdiff`, `sqdiff_normed`, `ccorr`, `ccorr_normed`,
`ccoeff`, `ccoeff_normed`; the source's own branches additionally treat
`autopy` as a member (`find_template` dispatches on it after the
membership guard, and `find_all` replaces it), so it is included. -/
def template_matchers : List String :=
  ["autopy", "sqdiff", "sqdiff_normed", "ccorr", "ccorr_normed",
   "ccoeff", "ccoeff_normed"]

/-- The keys of the `methods` dictionary inside `_match_template`. -/
def methodsKeys : List String :=
  ["sqdiff", "sqdiff_normed", "ccorr", "ccorr_normed", "ccoeff", "ccoeff_normed"]

/-- The external library calls the finder makes, collected as oracles:
image preparation, `cv2.matchTemplate`, the autopy bitmap search, the
feature detector/extractor, `cv.Resize` pixel contents, the composite
descriptor matching (knn plus the optional ratio and symmetry filters,
returning `(queryIdx, trainIdx)` pairs), `cv2.findHomography` (matrix
plus inlier mask) and `cv2.perspectiveTransform`. -/
structure Backend where
  gray : Img → Img
  matchSurf : String → Img → Img → Surface
  autopyFind : Img → Img → ℚ → Option TLoc
  detect : String → Img → List Keypoint
  resizePix : Img → ℕ → ℕ → ℚ
  matchIdx : String → List Keypoint → List Keypoint → List (ℕ × ℕ)
  findHomography : List (ℚ × ℚ) → List (ℚ × ℚ) → Hom × List ℕ
  perspectiveTransform : Hom → ℚ × ℚ → ℚ × ℚ

/-- Python's `int()` truncation toward zero on a rational. -/
def pyInt (q : ℚ) : ℤ := if q < 0 then ⌈q⌉ else ⌊q⌋

/-- All surface coordinates `(x, y)` with `x < w`, `y < h`, in the
row-major order `cv2.minMaxLoc` scans them. -/
def coords (w h : ℕ) : List TLoc :=
  (List.range h).flatMap (fun y => (List.range w).map (fun x => (x, y)))

theorem mem_coords {w h : ℕ} {p : TLoc} :
    p ∈ coords w h ↔ p.1 < w ∧ p.2 < h := by
  constructor
  · intro hp
    rcases List.mem_flatMap.mp hp with ⟨y, hy, hx⟩
    rcases List.mem_map.mp hx with ⟨x, hx', rfl⟩
    exact ⟨List.mem_range.mp hx', List.mem_range.mp hy⟩
  · intro ⟨h1, h2⟩
    exact List.mem_flatMap.mpr ⟨p.2, List.mem_range.mpr h2,
      List.mem_map.mpr ⟨p.1, List.mem_range.mpr h1, rfl⟩⟩

/-- First coordinate is a member whenever the surface is nonempty. -/
theorem origin_mem_coords {w h : ℕ} (hw : 1 ≤ w) (hh : 1 ≤ h) :
    ((0, 0) : TLoc) ∈ coords w h := mem_coords.mpr ⟨hw, hh⟩

/-- The running-minimum scan of `cv2.minMaxLoc` (value and first
location attaining it). -/
def bestMin (R : Surface) : ℚ × TLoc :=
  (coords R.w R.h).foldl
    (fun a p => if R.val p.2 p.1 < a.1 then (R.val p.2 p.1, p) else a)
    (R.val 0 0, (0, 0))

/-- The running-maximum scan of `cv2.minMaxLoc`. -/
def bestMax (R : Surface) : ℚ × TLoc :=
  (coords R.w R.h).foldl
    (fun a p => if a.1 < R.val p.2 p.1 then (R.val p.2 p.1, p) else a)
    (R.val 0 0, (0, 0))

/-- The quadruple `(minVal, maxVal, minLoc, maxLoc)` of `cv2.minMaxLoc`. -/
def minMaxLoc (R : Surface) : ℚ × ℚ × TLoc × TLoc :=
  ((bestMin R).1, (bestMax R).1, (bestMin R).2, (bestMax R).2)

/-- Generic facts about the running-minimum fold: the result is the
initial candidate or a scanned one, its value is the surface value
there, and it lower-bounds every scanned value and the start. -/
theorem foldMin_spec (f : TLoc → ℚ) (l : List TLoc) (a : ℚ × TLoc)
    (ha : a.1 = f a.2) :
    (((l.foldl (fun a p => if f p < a.1 then (f p, p) else a) a).2 = a.2 ∨
      (l.foldl (fun a p => if f p < a.1 then (f p, p) else a) a).2 ∈ l) ∧
     (l.foldl (fun a p => if f p < a.1 then (f p, p) else a) a).1 =
       f (l.foldl (fun a p => if f p < a.1 then (f p, p) else a) a).2 ∧
     (l.foldl (fun a p => if f p < a.1 then (f p, p) else a) a).1 ≤ a.1 ∧
     ∀ p ∈ l, (l.foldl (fun a p => if f p < a.1 then (f p, p) else a) a).1 ≤ f p) := by
  induction l generalizing a with
  | nil => exact ⟨Or.inl rfl, ha, le_refl _, by intro p hp; cases hp⟩
  | cons b t ih =>
    simp only [List.foldl_cons]
    by_cases hb : f b < a.1
    · simp only [if_pos hb]
      rcases ih (f b, b) rfl with ⟨h1, h2, h3, h4⟩
      refine ⟨?_, h2, (lt_of_le_of_lt h3 hb).le, ?_⟩
      · rcases h1 with h1 | h1
        · exact Or.inr (by simp [h1])
        · exact Or.inr (List.mem_cons_of_mem _ h1)
      · intro p hp
        rcases List.mem_cons.mp hp with rfl | hp
        · exact h3
        · exact h4 p hp
    · simp only [if_neg hb]
      rcases ih a ha with ⟨h1, h2, h3, h4⟩
      refine ⟨?_, h2, h3, ?_⟩
      · rcases h1 with h1 | h1
        · exact Or.inl h1
        · exact Or.inr (List.mem_cons_of_mem _ h1)
      · intro p hp
        rcases List.mem_cons.mp hp with rfl | hp
        · exact le_trans h3 (not_lt.mp hb)
        · exact h4 p hp

/-- Generic facts about the running-maximum fold. -/
theorem foldMax_spec (f : TLoc → ℚ) (l : List TLoc) (a : ℚ × TLoc)
    (ha : a.1 = f a.2) :
    (((l.foldl (fun a p => if a.1 < f p then (f p, p) else a) a).2 = a.2 ∨
      (l.foldl (fun a p => if a.1 < f p then (f p, p) else a) a).2 ∈ l) ∧
     (l.foldl (fun a p => if a.1 < f p then (f p, p) else a) a).1 =
       f (l.foldl (fun a p => if a.1 < f p then (f p, p) else a) a).2 ∧
     a.1 ≤ (l.foldl (fun a p => if a.1 < f p then (f p, p) else a) a).1 ∧
     ∀ p ∈ l, f p ≤ (l.foldl (fun a p => if a.1 < f p then (f p, p) else a) a).1) := by
  induction l generalizing a with
  | nil => exact ⟨Or.inl rfl, ha, le_refl _, by intro p hp; cases hp⟩
  | cons b t ih =>
    simp only [List.foldl_cons]
    by_cases hb : a.1 < f b
    · simp only [if_pos hb]
      rcases ih (f b, b) rfl with ⟨h1, h2, h3, h4⟩
      refine ⟨?_, h2, le_trans hb.le h3, ?_⟩
      · rcases h1 with h1 | h1
        · exact Or.inr (by simp [h1])
        · exact Or.inr (List.mem_cons_of_mem _ h1)
      · intro p hp
        rcases List.mem_cons.mp hp with rfl | hp
        · exact h3
        · exact h4 p hp
    · simp only [if_neg hb]
      rcases ih a ha with ⟨h1, h2, h3, h4⟩
      refine ⟨?_, h2, h3, ?_⟩
      · rcases h1 with h1 | h1
        · exact Or.inl h1
        · exact Or.inr (List.mem_cons_of_mem _ h1)
      · intro p hp
        rcases List.mem_cons.mp hp with rfl | hp
        · exact le_trans (not_lt.mp hb) h3
        · exact h4 p hp

/-- `bestMax` of a nonempty surface: the location is in range, achieves
the value, and the value dominates every cell. -/
theorem bestMax_spec (R : Surface) (hw : 1 ≤ R.w) (hh : 1 ≤ R.h) :
    (bestMax R).2 ∈ coords R.w R.h ∧
    R.val (bestMax R).2.2 (bestMax R).2.1 = (bestMax R).1 ∧
    ∀ p ∈ coords R.w R.h, R.val p.2 p.1 ≤ (bestMax R).1 := by
  have h := foldMax_spec (fun p => R.val p.2 p.1) (coords R.w R.h)
    (R.val 0 0, (0, 0)) rfl
  rcases h with ⟨h1, h2, _, h4⟩
  refine ⟨?_, h2.symm, h4⟩
  rcases h1 with h1 | h1
  · have h1' : (bestMax R).2 = ((0, 0) : TLoc) := h1
    rw [h1']; exact origin_mem_coords hw hh
  · exact h1

/-- `bestMin` of a nonempty surface: the location is in range, achieves
the value, and the value is below every cell. -/
theorem bestMin_spec (R : Surface) (hw : 1 ≤ R.w) (hh : 1 ≤ R.h) :
    (bestMin R).2 ∈ coords R.w R.h ∧
    R.val (bestMin R).2.2 (bestMin R).2.1 = (bestMin R).1 ∧
    ∀ p ∈ coords R.w R.h, (bestMin R).1 ≤ R.val p.2 p.1 := by
  have h := foldMin_spec (fun p => R.val p.2 p.1) (coords R.w R.h)
    (R.val 0 0, (0, 0)) rfl
  rcases h with ⟨h1, h2, _, h4⟩
  refine ⟨?_, h2.symm, h4⟩
  rcases h1 with h1 | h1
  · have h1' : (bestMin R).2 = ((0, 0) : TLoc) := h1
    rw [h1']; exact origin_mem_coords hw hh
  · exact h1

/-- If a surface has a unique strict minimum, `bestMin` finds exactly it. -/
theorem bestMin_unique (R : Surface) (p0 : TLoc) (m : ℚ)
    (hw : 1 ≤ R.w) (hh : 1 ≤ R.h)
    (hp0 : p0 ∈ coords R.w R.h) (hm : R.val p0.2 p0.1 = m)
    (huniq : ∀ p ∈ coords R.w R.h, p ≠ p0 → m < R.val p.2 p.1) :
    bestMin R = (m, p0) := by
  rcases bestMin_spec R hw hh with ⟨h1, h2, h3⟩
  have hle : (bestMin R).1 ≤ m := hm ▸ h3 p0 hp0
  by_cases he : (bestMin R).2 = p0
  · have : (bestMin R).1 = m := by rw [← h2, he, hm]
    rw [Prod.ext_iff]; exact ⟨this, he⟩
  · exact absurd (lt_of_lt_of_le (h2 ▸ huniq _ h1 he) hle) (lt_irrefl m)

/-! ## Template matching (`_match_template`, `find_template`, `find`, `find_all`) -/

/-- `ImageFinder._match_template` (imagefinder.py:635-660).  The size
sanity check returns `None` (modelled `.ok none`) after logging a
warning; an unknown method raises `ImageFinderMethodError`; otherwise
the (optionally grayscaled) images are handed to `cv2.matchTemplate`. -/
def match_template (B : Backend) (haystack needle : Img) (nocolor : Bool)
    (m : String) : Except Err (Option Surface) :=
  if haystack.width < needle.width ∨ haystack.height < needle.height then
    .ok none
  else if m ∉ methodsKeys then
    .error .imageFinderMethodError
  else if nocolor then
    .ok (some (B.matchSurf m (B.gray haystack) (B.gray needle)))
  else
    .ok (some (B.matchSurf m haystack needle))

/-- The polarity flip of imagefinder.py:134-136 and 224-227: for the
sqdiff family the reported similarity is `1 - minVal`, otherwise
`maxVal`, given the `(minVal, maxVal, minLoc, maxLoc)` quadruple. -/
def flipVal (tm : String) (q : ℚ × ℚ × TLoc × TLoc) : ℚ :=
  if tm = "sqdiff" ∨ tm = "sqdiff_normed" then 1 - q.1 else q.2.1

/-- The matching location: `minLoc` for the sqdiff family, else `maxLoc`. -/
def flipLoc (tm : String) (q : ℚ × ℚ × TLoc × TLoc) : TLoc :=
  if tm = "sqdiff" ∨ tm = "sqdiff_normed" then q.2.2.1 else q.2.2.2

/-- `ImageFinder.find_template` (imagefinder.py:86-155).  After the
`template_matchers` membership guard, the `autopy` branch defers to the
autopy bitmap search (its hotmap similarity is recorded as `-1.0`);
otherwise the correlation surface is scanned with `cv2.minMaxLoc`
(`None` from `_match_template` makes that call blow up, modelled
`.error .typeError`), the polarity is flipped for the sqdiff family,
and a `Location` is returned only when `maxVal > similarity`.  The
returned pair also carries the similarity stored into `hotmap[1]`. -/
def find_template (B : Backend) (eq : Equalizer) (haystack needle : Img)
    (similarity : ℚ) (nocolor : Bool) : Except Err (Option (Location × ℚ)) :=
  if eq.tmatch ∉ template_matchers then
    .error .imageFinderMethodError
  else if eq.tmatch = "autopy" then
    match B.autopyFind haystack needle similarity with
    | some c => .ok (some (((c.1 : ℤ), (c.2 : ℤ)), -1))
    | none => .ok none
  else
    match match_template B haystack needle nocolor eq.tmatch with
    | .error e => .error e
    | .ok none => .error .typeError
    | .ok (some R) =>
      let v := flipVal eq.tmatch (minMaxLoc R)
      let L := flipLoc eq.tmatch (minMaxLoc R)
      if similarity < v then .ok (some (((L.1 : ℤ), (L.2 : ℤ)), v)) else .ok none

/-- The suppression wipe of `find_all` (imagefinder.py:251-262): zero
every surface cell with `x` in `[max(mx-hw,0), min(mx+hw,resW))` and
`y` in `[max(my-hh,0), min(my+hh,resH))`. -/
def zeroWindow (R : Surface) (L : TLoc) (hw hh resW resH : ℕ) : Surface :=
  ⟨R.w, R.h, fun y x =>
    if L.1 - hw ≤ x ∧ x < min (L.1 + hw) resW ∧
       L.2 - hh ≤ y ∧ y < min (L.2 + hh) resH then 0 else R.val y x⟩

/-- The iterative maximum-suppression loop of `find_all`
(imagefinder.py:219-265), driven by explicit fuel: take the surface
extremum (flipped for the sqdiff family), stop when it falls below the
required similarity, otherwise record the location, wipe a window of
half the needle size around it, and repeat. -/
def find_all_loop (tm : String) (nw nh resW resH : ℕ) (s : ℚ) :
    ℕ → Surface → List Location → Option (List Location)
  | 0, _, _ => none
  | fuel + 1, R, acc =>
    let v := flipVal tm (minMaxLoc R)
    let L := flipLoc tm (minMaxLoc R)
    if v < s then some acc
    else find_all_loop tm nw nh resW resH s fuel
      (zeroWindow R L (nw / 2) (nh / 2) resW resH)
      (acc ++ [((L.1 : ℤ), (L.2 : ℤ))])

/-- The template method `find_all` actually runs
(imagefinder.py:210-215): `autopy` is silently replaced by
`ccoeff_normed`, every other configured method is used as configured. -/
def effectiveTM (tm : String) : String :=
  if tm = "autopy" then "ccoeff_normed" else tm

/-- `ImageFinder.find_all` (imagefinder.py:199-276): membership guard,
the `autopy`→`ccoeff_normed` replacement, the `_match_template` surface
(again `None` blows up inside `cv2.minMaxLoc`), then the suppression
loop.  `none` marks a run that does not finish within `fuel`. -/
def find_all (B : Backend) (eq : Equalizer) (fuel : ℕ) (haystack needle : Img)
    (similarity : ℚ) (nocolor : Bool) : Option (Except Err (List Location)) :=
  if eq.tmatch ∉ template_matchers then
    some (.error .imageFinderMethodError)
  else
    match match_template B haystack needle nocolor (effectiveTM eq.tmatch) with
    | .error e => some (.error e)
    | .ok none => some (.error .typeError)
    | .ok (some R) =>
      (find_all_loop eq.tmatch needle.width needle.height
        (haystack.width - needle.width + 1) (haystack.height - needle.height + 1)
        similarity fuel R []).map .ok

/-- Number of surface cells at or above the threshold `s`; the
termination measure of the suppression loop. -/
def countGE (R : Surface) (s : ℚ) : ℕ :=
  (coords R.w R.h).countP (fun p => decide (s ≤ R.val p.2 p.1))

/-! ## Exact semantics of `cv2.matchTemplate` for `TM_SQDIFF` -/

/-- The sum-of-squared-differences score of the needle placed at
offset `(x, y)` of the haystack: the exact value `cv2.matchTemplate`
computes for `TM_SQDIFF`. -/
def ssd (haystack needle : Img) (x y : ℕ) : ℚ :=
  ((coords needle.width needle.height).map
    (fun p => (haystack.pix (y + p.2) (x + p.1) - needle.pix p.2 p.1) ^ 2)).sum

/-- The full `TM_SQDIFF` correlation surface. -/
def sqdiffSurface (haystack needle : Img) : Surface :=
  ⟨haystack.width - needle.width + 1, haystack.height - needle.height + 1,
   fun y x => ssd haystack needle x y⟩

/-- The needle is an exact, unscaled, unrotated crop of the haystack at
offset `(x, y)`. -/
def occursAt (haystack needle : Img) (x y : ℕ) : Prop :=
  ∀ p ∈ coords needle.width needle.height,
    needle.pix p.2 p.1 = haystack.pix (y + p.2) (x + p.1)

instance (haystack needle : Img) (x y : ℕ) :
    Decidable (occursAt haystack needle x y) :=
  List.decidableBAll _ _

theorem sum_nonneg_of_sq (l : List ℚ) (hl : ∀ a ∈ l, 0 ≤ a) : 0 ≤ l.sum := by
  induction l with
  | nil => simp
  | cons b t ih =>
    rw [List.sum_cons]
    exact add_nonneg (hl b (List.mem_cons_self b t))
      (ih (fun a ha => hl a (List.mem_cons_of_mem b ha)))

theorem eq_zero_of_sum_eq_zero (l : List ℚ) (hl : ∀ a ∈ l, 0 ≤ a)
    (hs : l.sum = 0) : ∀ a ∈ l, a = 0 := by
  induction l with
  | nil => intro a ha; cases ha
  | cons b t ih =>
    rw [List.sum_cons] at hs
    have hb : 0 ≤ b := hl b (List.mem_cons_self b t)
    have ht : ∀ a ∈ t, 0 ≤ a := fun a ha => hl a (List.mem_cons_of_mem b ha)
    have htsum : 0 ≤ t.sum := sum_nonneg_of_sq t ht
    have hb0 : b = 0 := le_antisymm (by linarith) hb
    have ht0 : t.sum = 0 := by linarith
    intro a ha
    rcases List.mem_cons.mp ha with rfl | ha
    · exact hb0
    · exact ih ht ht0 a ha

theorem ssd_nonneg (haystack needle : Img) (x y : ℕ) :
    0 ≤ ssd haystack needle x y := by
  apply sum_nonneg_of_sq
  intro a ha
  rcases List.mem_map.mp ha with ⟨p, _, rfl⟩
  positivity

/-- Zero SSD at an offset is exactly an occurrence of the needle there. -/
theorem ssd_eq_zero_iff (haystack needle : Img) (x y : ℕ) :
    ssd haystack needle x y = 0 ↔ occursAt haystack needle x y := by
  constructor
  · intro h p hp
    have := eq_zero_of_sum_eq_zero _
      (fun a ha => by rcases List.mem_map.mp ha with ⟨q, _, rfl⟩; positivity) h
      ((haystack.pix (y + p.2) (x + p.1) - needle.pix p.2 p.1) ^ 2)
      (List.mem_map.mpr ⟨p, hp, rfl⟩)
    have := pow_eq_zero_iff (n := 2) (by norm_num) |>.mp this
    linarith [sub_eq_zero.mp this]
  · intro h
    apply List.sum_eq_zero
    intro a ha
    rcases List.mem_map.mp ha with ⟨p, hp, rfl⟩
    rw [h p hp]; ring

theorem ssd_pos_of_not_occurs (haystack needle : Img) (x y : ℕ)
    (h : ¬ occursAt haystack needle x y) : 0 < ssd haystack needle x y :=
  lt_of_le_of_ne (ssd_nonneg haystack needle x y)
    (fun he => h ((ssd_eq_zero_iff haystack needle x y).mp he.symm))

/-! ## Feature matching (`_detect_features`, `_match_features`,
`_project_needle_center`, `find_features`, `find`, `find_hybrid`) -/

/-- `cv.CreateMat(rows*2, cols*2)` followed by `cv.Resize`: the zoomed
image doubles each axis; its pixel contents come from the resize oracle. -/
def zoom2 (B : Backend) (m : Img) : Img :=
  ⟨m.width * 2, m.height * 2, B.resizePix m⟩

/-- The mutable locals of the `_detect_features` while-loop. -/
structure DetectSt where
  hg : Img
  ng : Img
  hkp : List Keypoint
  nkp : List Keypoint
  hfactor : ℕ
  nfactor : ℕ
  i : ℕ

/-- The loop guard of `_detect_features` (imagefinder.py:396) with
Python's operator precedence:
`len(hkeypoints) < 4 or (len(nkeypoints) < 4 and i < maxzoom)`. -/
def detectCond (st : DetectSt) : Prop :=
  st.hkp.length < 4 ∨ (st.nkp.length < 4 ∧ st.i < 5)

instance (st : DetectSt) : Decidable (detectCond st) := by
  unfold detectCond; infer_instance

/-- One iteration of the `_detect_features` loop
(imagefinder.py:397-447): bump `i`, run the configured detector on the
current images (`oldSURF` or a tested detector/extractor pair, anything
else raising `ImageFinderMethodError`), then zoom whichever image
yielded fewer than 4 keypoints, doubling its cumulative factor. -/
def detectBody (B : Backend) (eq : Equalizer) (st : DetectSt) :
    Except Err DetectSt :=
  if eq.fdetect = "oldSURF" ∨
     (eq.fdetect ∈ eq.feature_detectors ∧ eq.fextract ∈ eq.feature_extractors) then
    let hkp := B.detect eq.fdetect st.hg
    let nkp := B.detect eq.fdetect st.ng
    let ngroom := if nkp.length < 4 then (zoom2 B st.ng, st.nfactor * 2)
                  else (st.ng, st.nfactor)
    let hgroom := if hkp.length < 4 then (zoom2 B st.hg, st.hfactor * 2)
                  else (st.hg, st.hfactor)
    .ok ⟨hgroom.1, ngroom.1, hkp, nkp, hgroom.2, ngroom.2, st.i + 1⟩
  else
    .error .imageFinderMethodError

/-- The `_detect_features` while-loop run on explicit fuel; `none`
marks a run that does not exit within `fuel` iterations. -/
def detectLoop (B : Backend) (eq : Equalizer) :
    ℕ → DetectSt → Option (Except Err DetectSt)
  | 0, st => if detectCond st then none else some (.ok st)
  | fuel + 1, st =>
    if detectCond st then
      match detectBody B eq st with
      | .error e => some (.error e)
      | .ok st' => detectLoop B eq fuel st'
    else some (.ok st)

/-- Back-projection of a keypoint to original-image coordinates:
divide `pt` by the cumulative zoom factor of its image. -/
def scaleKp (f : ℕ) (kp : Keypoint) : Keypoint :=
  ⟨kp.id, (kp.pt.1 / (f : ℚ), kp.pt.2 / (f : ℚ))⟩

/-- `ImageFinder._detect_features` (imagefinder.py:384-462): run the
zoom-retry loop from factors 1 and `i = 0`, then rescale the surviving
keypoint coordinates back to original-image space. -/
def detect_features (B : Backend) (eq : Equalizer) (fuel : ℕ)
    (hgray ngray : Img) : Option (Except Err (List Keypoint × List Keypoint)) :=
  match detectLoop B eq fuel ⟨hgray, ngray, [], [], 1, 1, 0⟩ with
  | none => none
  | some (.error e) => some (.error e)
  | some (.ok st) =>
    some (.ok (st.hkp.map (scaleKp st.hfactor), st.nkp.map (scaleKp st.nfactor)))

/-- `ImageFinder._match_features` (imagefinder.py:464-568): the matcher
guard (`in-house` or a tested matcher name, anything else raising
`ImageFinderMethodError`), the knn matching with its optional ratio and
symmetry filters collapsed into the `matchIdx` oracle producing
`(queryIdx, trainIdx)` pairs, the matched keypoint lists read off those
indices, and the similarity `len(match_nkeypoints)/len(nkeypoints)`
stored into `hotmap[1]` (returned as the third component). -/
def match_features (B : Backend) (eq : Equalizer)
    (hkp nkp : List Keypoint) :
    Except Err (List Keypoint × List Keypoint × ℚ) :=
  if eq.fmatch = "in-house" ∨ eq.fmatch ∈ eq.feature_matchers then
    let pairs := B.matchIdx eq.fmatch nkp hkp
    let mhkp := pairs.map (fun pr => hkp.getD pr.2 ⟨0, (0, 0)⟩)
    let mnkp := pairs.map (fun pr => nkp.getD pr.1 ⟨0, (0, 0)⟩)
    .ok (mhkp, mnkp, (mnkp.length : ℚ) / (nkp.length : ℚ))
  else
    .error .imageFinderMethodError

/-- `ImageFinder._project_needle_center` (imagefinder.py:570-619):
estimate the homography on the matched points, count `total_matches`
by walking `mhkp` and reading the inlier mask at `mhkp.index(kp)` —
the *first* occurrence of the keypoint, exactly as `list.index` does —
project the needle center `(width/2, height/2)` through the matrix,
and report `total_matches/len(mnkp)` as `hotmap[1]` with the truncated
center as `hotmap[2]`. -/
def project_needle_center (B : Backend) (needle : Img)
    (mnkp mhkp : List Keypoint) : ℚ × (ℤ × ℤ) :=
  let hm := B.findHomography (mnkp.map (·.pt)) (mhkp.map (·.pt))
  let mask := hm.2
  let total : ℕ := mhkp.foldl
    (fun t kp => if mask.getD (mhkp.indexOf kp) 0 = 1 then t + 1 else t) 0
  let oc : ℚ × ℚ := ((needle.width / 2 : ℕ), (needle.height / 2 : ℕ))
  let mc := B.perspectiveTransform hm.1 oc
  ((total : ℚ) / (mnkp.length : ℚ), (pyInt mc.1, pyInt mc.2))

/-- The post-detection stages of `ImageFinder.find_features`
(imagefinder.py:177-197): bail out with `None` when either keypoint
set has fewer than 4 elements, match, bail out with `None` when the
matched similarity is below threshold or fewer than 4 pairs matched,
project the needle center, and return its `Location` (paired with the
final `hotmap[1]` similarity) unless that final similarity fell below
the threshold. -/
def featPipeline (B : Backend) (eq : Equalizer) (similarity : ℚ)
    (needle : Img) (hkp nkp : List Keypoint) :
    Except Err (Option (Location × ℚ)) :=
  if nkp.length < 4 ∨ hkp.length < 4 then .ok none
  else
    match match_features B eq hkp nkp with
    | .error e => .error e
    | .ok (mhkp, mnkp, sim1) =>
      if sim1 < similarity ∨ mnkp.length < 4 then .ok none
      else
        let pr := project_needle_center B needle mnkp mhkp
        if pr.1 < similarity then .ok none
        else .ok (some (pr.2, pr.1))

/-- `ImageFinder.find_features` (imagefinder.py:157-197): grayscale
both images, run detection (rescaled), then the matching/projection
pipeline above. -/
def find_features (B : Backend) (eq : Equalizer) (fuel : ℕ)
    (haystack needle : Img) (similarity : ℚ) :
    Option (Except Err (Option (Location × ℚ))) :=
  match detect_features B eq fuel (B.gray haystack) (B.gray needle) with
  | none => none
  | some (.error e) => some (.error e)
  | some (.ok (hkp, nkp)) => some (featPipeline B eq similarity needle hkp nkp)

/-- `ImageFinder.find` (imagefinder.py:66-84): dispatch on
`eq.current["find"]` — `template` and `feature` are the only recognized
strategies, anything else raises `ImageFinderMethodError`. -/
def find (B : Backend) (eq : Equalizer) (fuel : ℕ) (haystack needle : Img)
    (similarity : ℚ) (nocolor : Bool) :
    Option (Except Err (Option (Location × ℚ))) :=
  if eq.find = "template" then
    some (find_template B eq haystack needle similarity nocolor)
  else if eq.find = "feature" then
    find_features B eq fuel haystack needle similarity
  else
    some (.error .imageFinderMethodError)

/-- Sub-rectangle extraction `hgray[up:down, left:right]` (the `.copy()`
is identity in a pure model). -/
def subImg (m : Img) (up down left right : ℕ) : Img :=
  ⟨right - left, down - up, fun r c => m.pix (up + r) (left + c)⟩

/-- `math.ceil(float(a) / b)` for naturals (exact for `b > 0`). -/
def pyCeilDiv (a b : ℕ) : ℕ := (a + b - 1) / b

/-- The per-tile body of `find_hybrid` (imagefinder.py:343-365) on one
haystack subregion: detection (with the zoom-retry loop), the `<4`
keypoint bail-out recording score `0.0`, matching with its bail-out
recording the matched similarity, projection, and the final threshold
test yielding the tile-local match point. -/
def tileEval (B : Backend) (eq : Equalizer) (fuel : ℕ) (ngray needle : Img)
    (similarity : ℚ) (hregion : Img) :
    Option (Except Err (ℚ × Option (ℤ × ℤ))) :=
  match detect_features B eq fuel hregion ngray with
  | none => none
  | some (.error e) => some (.error e)
  | some (.ok (hkp, nkp)) =>
    if nkp.length < 4 ∨ hkp.length < 4 then some (.ok (0, none))
    else
      match match_features B eq hkp nkp with
      | .error e => some (.error e)
      | .ok (mhkp, mnkp, sim1) =>
        if sim1 < similarity ∨ mnkp.length < 4 then some (.ok (sim1, none))
        else
          let pr := project_needle_center B needle mnkp mhkp
          some (.ok (pr.1, if pr.1 < similarity then none else some pr.2))

/-- The tile index list, `i` outer and `j` inner, exactly the order of
the two nested `for` loops of `find_hybrid`. -/
def tiles (nx ny : ℕ) : List (ℕ × ℕ) :=
  (List.range nx).flatMap (fun i => (List.range ny).map (fun j => (i, j)))

/-- The 2-D score grid (`result`) as a function of row and column. -/
abbrev Grid := ℕ → ℕ → ℚ

/-- The `locations` dict of `find_hybrid` as a partial map keyed by
`(j, i)`. -/
abbrev Locs := (ℕ × ℕ) → Option (ℤ × ℤ)

/-- Write one tile score into the 2-D score grid (`result[j][i] = v`). -/
def updGrid (g : Grid) (j i : ℕ) (v : ℚ) : Grid :=
  fun j' i' => if j' = j ∧ i' = i then v else g j' i'

/-- Record one global location (`locations[(j, i)] = c`). -/
def updLocs (ls : Locs) (j i : ℕ) (c : ℤ × ℤ) : Locs :=
  fun k => if k = (j, i) then some c else ls k

/-- One `find_hybrid` tile step threaded through the accumulated
`(result, locations)` state: evaluate the tile at `(i, j)`, write its
score to the pre-assigned grid cell, and append the translated global
location when the tile cleared the threshold. -/
def hybridStep (B : Backend) (eq : Equalizer) (fuel : ℕ) (ngray needle : Img)
    (similarity : ℚ) (hgray : Img) (W H x y dx dy : ℕ)
    (acc : Option (Except Err (Grid × Locs))) (t : ℕ × ℕ) :
    Option (Except Err (Grid × Locs)) :=
  match acc with
  | none => none
  | some (.error e) => some (.error e)
  | some (.ok (grid, locs)) =>
    let left := t.1 * dx
    let right := min W (t.1 * dx + x)
    let up := t.2 * dy
    let down := min H (t.2 * dy + y)
    match tileEval B eq fuel ngray needle similarity (subImg hgray up down left right) with
    | none => none
    | some (.error e) => some (.error e)
    | some (.ok (v, optc)) =>
      some (.ok (updGrid grid t.2 t.1 v,
        match optc with
        | some c => updLocs locs t.2 t.1 ((left : ℤ) + c.1, (up : ℤ) + c.2)
        | none => locs))

/-- `ImageFinder.find_hybrid` (imagefinder.py:278-382): clip the
translation distances to the haystack, compute the `nx × ny` tile grid,
and fold the per-tile evaluation over all tiles starting from the
all-zero score grid (`numpy.zeros`) and an empty location table. -/
def find_hybrid (B : Backend) (eq : Equalizer) (fuel : ℕ)
    (haystack needle : Img) (similarity : ℚ) (x y dx dy : ℕ) :
    Option (Except Err (Grid × Locs)) :=
  (tiles (pyCeilDiv (haystack.width - x) (min dx haystack.width) + 1)
         (pyCeilDiv (haystack.height - y) (min dy haystack.height) + 1)).foldl
    (hybridStep B eq fuel (B.gray needle) needle similarity (B.gray haystack)
      haystack.width haystack.height x y
      (min dx haystack.width) (min dy haystack.height))
    (some (.ok (fun _ _ => 0, fun _ => none)))

/-! ## Concrete fixtures for closed evaluations -/

/-- A trivial concrete backend: grayscale is the identity, the
correlation surface follows the exact `TM_SQDIFF` semantics, the other
oracles are inert. -/
def trivB : Backend where
  gray := id
  matchSurf := fun _ h n => sqdiffSurface h n
  autopyFind := fun _ _ _ => none
  detect := fun _ _ => []
  resizePix := fun _ _ _ => 0
  matchIdx := fun _ _ _ => []
  findHomography := fun _ _ => ([], [])
  perspectiveTransform := fun _ p => p

/-- A baseline equalizer state: template strategy, `ccoeff_normed`
template method, `oldSURF` detector, in-house matcher. -/
def eqBase : Equalizer :=
  ⟨"template", "ccoeff_normed", "oldSURF", "ORB", "in-house", [], [], []⟩

/-- A 640×480 uniform haystack. -/
def hay640 : Img := ⟨640, 480, fun _ _ => 0⟩

/-- An 800×600 uniform needle, larger than `hay640` in both axes. -/
def nd800 : Img := ⟨800, 600, fun _ _ => 0⟩

/-! ## C1: oversized needle -/

/-- C1 (counterexample): with a 800×600 needle against a 640×480
haystack and a recognized template method, `_match_template` returns
`None` — it does not raise a `SizeError` — and `find_template` then
dies on the missing surface inside `cv2.minMaxLoc` with a generic
`TypeError`, contradicting the claim that a `SizeError` is raised. -/
theorem c1_counterexample :
    match_template trivB hay640 nd800 true "ccoeff_normed" = .ok none ∧
    find_template trivB eqBase hay640 nd800 (9 / 10) true = .error .typeError := by
  constructor <;> rfl

/-- C1 (amended): whenever the needle is wider or taller than the
haystack and a recognized non-autopy template method is configured,
`_match_template` returns `None` with only a warning logged (no match
is attempted), and the enclosing `find_template` call consequently
fails with a `TypeError` from `cv2.minMaxLoc(None)` — never with a
`SizeError`. -/
theorem c1_oversized_needle_returns_none (B : Backend) (eq : Equalizer)
    (haystack needle : Img) (s : ℚ) (nocolor : Bool)
    (hsize : haystack.width < needle.width ∨ haystack.height < needle.height)
    (hmem : eq.tmatch ∈ template_matchers) (hauto : eq.tmatch ≠ "autopy") :
    match_template B haystack needle nocolor eq.tmatch = .ok none ∧
    find_template B eq haystack needle s nocolor = .error .typeError := by
  have h1 : match_template B haystack needle nocolor eq.tmatch = .ok none := by
    unfold match_template
    rw [if_pos hsize]
  refine ⟨h1, ?_⟩
  unfold find_template
  rw [if_neg (not_not_intro hmem), if_neg hauto, h1]

/-- C1 (witness for the amended theorem) at the sizes of the spec's
concrete scenario. -/
theorem c1_oversized_needle_returns_none_witness :
    match_template trivB hay640 nd800 true "sqdiff" = .ok none ∧
    find_template trivB { eqBase with tmatch := "sqdiff" } hay640 nd800
      (9 / 10) true = .error .typeError :=
  c1_oversized_needle_returns_none trivB { eqBase with tmatch := "sqdiff" }
    hay640 nd800 (9 / 10) true (Or.inl (by decide)) (by decide) (by decide)

/-! ## C2: configuration guards and the silent autopy substitution -/

/-- A 2×2 uniform image. -/
def img2 : Img := ⟨2, 2, fun _ _ => 0⟩

/-- A 1×1 surface holding the single literal value 1 (a perfect
correlation score), used as an oracle-produced surface. -/
def oneSurf : Surface := ⟨1, 1, fun _ _ => 1⟩

/-- A backend whose `cv2.matchTemplate` oracle returns `oneSurf`. -/
def oneB : Backend := { trivB with matchSurf := fun _ _ _ => oneSurf }

/-- C2 (counterexample): `autopy` is a recognized template matcher, yet
`find_all` silently replaces it with `ccoeff_normed` and completes a
search without any `ConfigurationError`, contradicting the claim that a
recognized name is never substituted by a different algorithm. -/
theorem c2_counterexample :
    "autopy" ∈ template_matchers ∧
    effectiveTM "autopy" = "ccoeff_normed" ∧
    effectiveTM "autopy" ≠ "autopy" ∧
    find_all oneB { eqBase with tmatch := "autopy" } 2 img2 img2 2 true
      = some (.ok []) := by
  refine ⟨by decide, by decide, by decide, ?_⟩
  rfl

/-- C2 (amended): an unrecognized template method makes `find_template`
and `find_all` fail with `ImageFinderMethodError` before touching any
image data (the backend oracles are arbitrary), an unrecognized
strategy makes `find` fail likewise, and a recognized template method
other than `autopy` is used exactly as configured by `find_all` —
`autopy` alone is silently replaced by `ccoeff_normed` there. -/
theorem c2_unknown_names_fail_fast (B : Backend) (eq eq2 : Equalizer)
    (fuel : ℕ) (haystack needle : Img) (s : ℚ) (nocolor : Bool) (m : String)
    (hbad : eq.tmatch ∉ template_matchers)
    (hstrat : eq2.find ≠ "template") (hstrat2 : eq2.find ≠ "feature")
    (hm : m ∈ template_matchers) (hma : m ≠ "autopy") :
    find_template B eq haystack needle s nocolor = .error .imageFinderMethodError ∧
    find_all B eq fuel haystack needle s nocolor
      = some (.error .imageFinderMethodError) ∧
    find B eq2 fuel haystack needle s nocolor
      = some (.error .imageFinderMethodError) ∧
    effectiveTM m = m := by
  refine ⟨?_, ?_, ?_, ?_⟩
  · unfold find_template; rw [if_pos hbad]
  · unfold find_all; rw [if_pos hbad]
  · unfold find; rw [if_neg hstrat, if_neg hstrat2]
  · unfold effectiveTM; rw [if_neg hma]

/-- C2 (witness for the amended theorem). -/
theorem c2_unknown_names_fail_fast_witness :
    find_template trivB { eqBase with tmatch := "bogus" } img2 img2 (1 / 2) true
      = .error .imageFinderMethodError ∧
    find_all trivB { eqBase with tmatch := "bogus" } 2 img2 img2 (1 / 2) true
      = some (.error .imageFinderMethodError) ∧
    find trivB { eqBase with find := "hybrid" } 2 img2 img2 (1 / 2) true
      = some (.error .imageFinderMethodError) ∧
    effectiveTM "ccorr" = "ccorr" :=
  c2_unknown_names_fail_fast trivB { eqBase with tmatch := "bogus" }
    { eqBase with find := "hybrid" } 2 img2 img2 (1 / 2) true "ccorr"
    (by decide) (by decide) (by decide) (by decide) (by decide)

/-! ## C9: the `find` dispatcher has no hybrid branch -/

/-- C9 (counterexample): configuring the strategy name `hybrid` makes
`find` raise `ImageFinderMethodError` instead of performing the hybrid
tiled search. -/
theorem c9_counterexample :
    find trivB { eqBase with find := "hybrid" } 1 img2 img2 (1 / 2) true
      = some (.error .imageFinderMethodError) := rfl

/-- C9 (amended): `find` dispatches only on `template` and `feature`;
every other strategy name — including `hybrid` — raises
`ImageFinderMethodError`, the hybrid tiled search being reachable only
by calling `find_hybrid` directly. -/
theorem c9_find_rejects_other_strategies (B : Backend) (eq : Equalizer)
    (fuel : ℕ) (haystack needle : Img) (s : ℚ) (nocolor : Bool)
    (h1 : eq.find ≠ "template") (h2 : eq.find ≠ "feature") :
    find B eq fuel haystack needle s nocolor
      = some (.error .imageFinderMethodError) := by
  unfold find; rw [if_neg h1, if_neg h2]

/-- C9 (witness for the amended theorem), at the strategy name
`hybrid` itself. -/
theorem c9_find_rejects_other_strategies_witness :
    find trivB { eqBase with find := "hybrid" } 7 hay640 nd800 (3 / 4) false
      = some (.error .imageFinderMethodError) :=
  c9_find_rejects_other_strategies trivB { eqBase with find := "hybrid" }
    7 hay640 nd800 (3 / 4) false (by decide) (by decide)

/-! ## C3: exact crops under template matching -/

/-- The sqdiff-family test evaluates positively on `"sqdiff"`. -/
theorem flipVal_sqdiff (q : ℚ × ℚ × TLoc × TLoc) : flipVal "sqdiff" q = 1 - q.1 := by
  simp [flipVal]

theorem flipLoc_sqdiff (q : ℚ × ℚ × TLoc × TLoc) : flipLoc "sqdiff" q = q.2.2.1 := by
  simp [flipLoc]

theorem flipVal_of_ne (tm : String) (q : ℚ × ℚ × TLoc × TLoc)
    (h1 : tm ≠ "sqdiff") (h2 : tm ≠ "sqdiff_normed") : flipVal tm q = q.2.1 := by
  simp [flipVal, h1, h2]

theorem flipLoc_of_ne (tm : String) (q : ℚ × ℚ × TLoc × TLoc)
    (h1 : tm ≠ "sqdiff") (h2 : tm ≠ "sqdiff_normed") : flipLoc tm q = q.2.2.2 := by
  simp [flipLoc, h1, h2]

/-- The equalizer configured for the `sqdiff` template method. -/
def eqSq : Equalizer := { eqBase with tmatch := "sqdiff" }

/-- Reduction of `find_template` under the `sqdiff` configuration and
the exact `TM_SQDIFF` backend: the outcome is governed by
`1 - minVal` against the required similarity, at `minLoc`. -/
theorem find_template_sqdiff_eval (haystack needle : Img) (s : ℚ)
    (hsz : ¬(haystack.width < needle.width ∨ haystack.height < needle.height)) :
    find_template trivB eqSq haystack needle s false
      = if s < 1 - (bestMin (sqdiffSurface haystack needle)).1 then
          .ok (some ((((bestMin (sqdiffSurface haystack needle)).2.1 : ℤ),
                      ((bestMin (sqdiffSurface haystack needle)).2.2 : ℤ)),
                     1 - (bestMin (sqdiffSurface haystack needle)).1))
        else .ok none := by
  unfold find_template
  rw [if_neg (not_not_intro (show eqSq.tmatch ∈ template_matchers by decide)),
      if_neg (show eqSq.tmatch ≠ "autopy" by decide)]
  unfold match_template
  rw [if_neg hsz,
      if_neg (not_not_intro (show eqSq.tmatch ∈ methodsKeys by decide)),
      if_neg (show ¬(false = true) by decide)]
  show (if s < flipVal eqSq.tmatch (minMaxLoc (sqdiffSurface haystack needle))
          then _ else _) = _
  rw [show eqSq.tmatch = "sqdiff" from rfl, flipVal_sqdiff, flipLoc_sqdiff]
  rfl

/-- A 2×2 haystack with the distinct pixel values 0, 1, 2, 3. -/
def hayC3 : Img := ⟨2, 2, fun y x => ((2 * y + x : ℕ) : ℚ)⟩

/-- The 1×1 needle equal to the crop of `hayC3` at offset `(1, 0)`. -/
def ndC3 : Img := ⟨1, 1, fun _ _ => ((1 : ℕ) : ℚ)⟩

/-- The SQDIFF correlation surface of the `hayC3`/`ndC3` pair has its
unique zero at the crop offset `(1, 0)`. -/
theorem bestMin_hayC3 : bestMin (sqdiffSurface hayC3 ndC3) = (0, (1, 0)) := by
  apply bestMin_unique _ _ _ (by decide) (by decide) (by decide)
  · exact (ssd_eq_zero_iff hayC3 ndC3 1 0).mpr (by decide)
  · intro p hp hne
    exact ssd_pos_of_not_occurs _ _ p.1 p.2
      ((show ∀ p ∈ coords 2 2, p ≠ (1, 0) → ¬ occursAt hayC3 ndC3 p.1 p.2
        by decide) p hp hne)

/-- C3 (counterexample): `ndC3` is an exact, unscaled, unrotated crop
of `hayC3` at offset `(1, 0)`, and `1.0 ≤ 1.0`, yet template matching
with required similarity exactly `1.0` returns no match, because
`find_template` demands `maxVal > similarity` strictly — refuting the
claim for `similarity = 1.0`. -/
theorem c3_counterexample :
    occursAt hayC3 ndC3 1 0 ∧ (1 : ℚ) ≤ 1 ∧
    find_template trivB eqSq hayC3 ndC3 1 false = .ok none := by
  refine ⟨by decide, le_refl 1, ?_⟩
  rw [find_template_sqdiff_eval hayC3 ndC3 1 (by decide), bestMin_hayC3]
  norm_num

/-- C3 (amended): when the needle is an exact, unscaled, unrotated crop
of the haystack at offset `(ox, oy)`, occurs nowhere else, and the
required similarity is *strictly below* `1.0`, template matching with
the `sqdiff` method returns a match at exactly that offset, and the
reported similarity is the perfect score `1` (in particular at least
`0.999`). -/
theorem c3_exact_crop_found (haystack needle : Img) (ox oy : ℕ) (s : ℚ)
    (hsz : ¬(haystack.width < needle.width ∨ haystack.height < needle.height))
    (hox : ox < haystack.width - needle.width + 1)
    (hoy : oy < haystack.height - needle.height + 1)
    (hcrop : occursAt haystack needle ox oy)
    (huniq : ∀ p ∈ coords (haystack.width - needle.width + 1)
        (haystack.height - needle.height + 1),
      p ≠ (ox, oy) → ¬ occursAt haystack needle p.1 p.2)
    (hs : s < 1) :
    find_template trivB eqSq haystack needle s false
      = .ok (some (((ox : ℤ), (oy : ℤ)), 1)) ∧ (999 / 1000 : ℚ) ≤ 1 := by
  refine ⟨?_, by norm_num⟩
  have hbm : bestMin (sqdiffSurface haystack needle) = (0, (ox, oy)) := by
    apply bestMin_unique _ (ox, oy) 0
      (by show 1 ≤ haystack.width - needle.width + 1; omega)
      (by show 1 ≤ haystack.height - needle.height + 1; omega)
      (mem_coords.mpr ⟨hox, hoy⟩)
      ((ssd_eq_zero_iff haystack needle ox oy).mpr hcrop)
    intro p hp hne
    exact ssd_pos_of_not_occurs _ _ p.1 p.2 (huniq p hp hne)
  rw [find_template_sqdiff_eval haystack needle s hsz, hbm]
  norm_num [hs]

/-- C3 (witness for the amended theorem) on the concrete crop pair. -/
theorem c3_exact_crop_found_witness :
    find_template trivB eqSq hayC3 ndC3 0 false
      = .ok (some (((1 : ℤ), (0 : ℤ)), 1)) ∧ (999 / 1000 : ℚ) ≤ 1 :=
  c3_exact_crop_found hayC3 ndC3 1 0 0 (by decide) (by decide) (by decide)
    (by decide) (by decide) (by decide)

/-! ## C4: the zoom-retry loop is not bounded on the haystack side -/

/-- The equalizer configured for feature matching through the
`oldSURF` detector branch and the in-house matcher. -/
def eqF : Equalizer :=
  ⟨"feature", "ccoeff_normed", "oldSURF", "ORB", "in-house", [], [], []⟩

/-- A 1×1 uniform image. -/
def img1 : Img := ⟨1, 1, fun _ _ => 0⟩

/-- With a detector that keeps reporting fewer than 4 haystack
keypoints, the `_detect_features` loop guard
`len(hkeypoints) < 4 or (len(nkeypoints) < 4 and i < maxzoom)` stays
true forever: the `maxzoom` bound only reins in the needle clause. -/
theorem detectLoop_stuck_of_empty (B : Backend) (eq : Equalizer)
    (hdet : ∀ m img, B.detect m img = [])
    (hguard : eq.fdetect = "oldSURF" ∨
      (eq.fdetect ∈ eq.feature_detectors ∧ eq.fextract ∈ eq.feature_extractors)) :
    ∀ fuel st, st.hkp.length < 4 → detectLoop B eq fuel st = none := by
  intro fuel
  induction fuel with
  | zero =>
    intro st hst
    unfold detectLoop
    rw [if_pos (show detectCond st from Or.inl hst)]
  | succ f ih =>
    intro st hst
    unfold detectLoop
    rw [if_pos (show detectCond st from Or.inl hst)]
    show (match detectBody B eq st with
          | .error e => some (.error e)
          | .ok st' => detectLoop B eq f st') = none
    unfold detectBody
    rw [if_pos hguard]
    simp only [hdet]
    exact ih _ (by simp)

/-- The detect loop obeys its defining step equation on positive fuel. -/
theorem detectLoop_succ (B : Backend) (eq : Equalizer) (f : ℕ) (st : DetectSt) :
    detectLoop B eq (f + 1) st =
      if detectCond st then
        match detectBody B eq st with
        | .error e => some (.error e)
        | .ok st' => detectLoop B eq f st'
      else some (.ok st) := rfl

/-- C4: the claim's bound fails — on an input where the feature
detector finds no haystack keypoints at any zoom level (here: a
detector returning none at all), the `_detect_features` zoom-and-retry
loop never terminates, for any amount of fuel: Python's operator
precedence applies the `maxzoom` bound only to the needle clause of the
guard. -/
theorem c4_zoom_retry_unbounded :
    ¬ ∃ fuel r, detectLoop trivB eqF fuel ⟨img1, img1, [], [], 1, 1, 0⟩ = some r := by
  rintro ⟨fuel, r, hr⟩
  rw [detectLoop_stuck_of_empty trivB eqF (fun _ _ => rfl) (Or.inl rfl)
    fuel _ (by simp)] at hr
  cases hr

/-! ## C5: the inlier count misreads the mask on duplicated keypoints -/

/-- Two distinct needle keypoints. -/
def kpN1 : Keypoint := ⟨1, (0, 0)⟩
def kpN2 : Keypoint := ⟨2, (1, 0)⟩

/-- The single haystack keypoint both needle keypoints matched to
(the same Python object appears twice in `mhkp`). -/
def kpH : Keypoint := ⟨3, (5, 5)⟩

/-- A backend whose homography oracle reports the inlier mask `[1, 0]`:
exactly one of the two matched pairs is an inlier. -/
def maskB : Backend :=
  { trivB with
    findHomography := fun _ _ => ([], [1, 0])
    perspectiveTransform := fun _ p => p }

/-- A 10×6 needle (its center is `(5, 3)`). -/
def ndC5 : Img := ⟨10, 6, fun _ _ => 0⟩

/-- C5: at a failing input where the same haystack keypoint was matched
by two needle keypoints and the homography mask is `[1, 0]` (one
inlier / two pairs), `_project_needle_center` reports similarity `1`
instead of `inliers / total = 1/2`: `mhkp.index(kp)` resolves every
duplicate to the first occurrence, so the single mask bit is counted
twice.  (The reported value still lies in `[0, 1]`.) -/
theorem c5_duplicate_inlier_miscount :
    (project_needle_center maskB ndC5 [kpN1, kpN2] [kpH, kpH]).1 = 1 ∧
    (([1, 0].count 1 : ℚ)) / (([kpH, kpH].length : ℚ)) = 1 / 2 ∧
    ¬ ((1 : ℚ) = 1 / 2) := by
  have htot : ([kpH, kpH].foldl
      (fun t kp => if [1, 0].getD ([kpH, kpH].indexOf kp) 0 = 1 then t + 1 else t)
      0 : ℕ) = 2 := by decide
  refine ⟨?_, by norm_num, by norm_num⟩
  simp only [project_needle_center, maskB, trivB]
  rw [htot]
  norm_num

/-! ## C6: shortage handling in `find_features` -/

/-- When its guard is already false, the detect loop exits at once. -/
theorem detectLoop_exit (B : Backend) (eq : Equalizer) (fuel : ℕ)
    (st : DetectSt) (h : ¬ detectCond st) :
    detectLoop B eq fuel st = some (.ok st) := by
  cases fuel with
  | zero => unfold detectLoop; rw [if_neg h]
  | succ f => rw [detectLoop_succ, if_neg h]

/-- When its guard holds and the body succeeds, the detect loop spends
one unit of fuel and continues from the new state. -/
theorem detectLoop_step (B : Backend) (eq : Equalizer) (f : ℕ)
    (st st' : DetectSt) (h : detectCond st) (hb : detectBody B eq st = .ok st') :
    detectLoop B eq (f + 1) st = detectLoop B eq f st' := by
  rw [detectLoop_succ, if_pos h, hb]

/-- Back-projection with cumulative factor 1 is the identity. -/
theorem scaleKp_one (kp : Keypoint) : scaleKp 1 kp = kp := by
  simp [scaleKp]

theorem scaleKp_one_eq_id : scaleKp 1 = id := funext scaleKp_one

/-- Four distinct keypoints with arithmetic-free coordinates. -/
def kpA0 : Keypoint := ⟨10, (0, 0)⟩
def kpA1 : Keypoint := ⟨11, (1, 0)⟩
def kpA2 : Keypoint := ⟨12, (2, 0)⟩
def kpA3 : Keypoint := ⟨13, (3, 0)⟩

/-- A 4-element keypoint list, enough for homography estimation. -/
def kpl4 : List Keypoint := [kpA0, kpA1, kpA2, kpA3]

/-- A backend detecting `kpl4` everywhere, matching all four pairs
one-to-one, whose homography oracle reports the inlier mask
`[1, 1, 1, 0]` — three inliers out of four matched pairs — and whose
projection lands at `(9, 7)`. -/
def featB : Backend :=
  { trivB with
    detect := fun _ _ => kpl4
    matchIdx := fun _ _ _ => [(0, 0), (1, 1), (2, 2), (3, 3)]
    findHomography := fun _ _ => ([], [1, 1, 1, 0])
    perspectiveTransform := fun _ _ => (9, 7) }

/-- On any state, the `featB` detect body finds the four keypoints in
both images and zooms nothing. -/
theorem detectBody_featB (st : DetectSt) :
    detectBody featB eqF st
      = .ok ⟨st.hg, st.ng, kpl4, kpl4, st.hfactor, st.nfactor, st.i + 1⟩ := by
  simp [detectBody, featB, trivB, eqF, kpl4]

/-- Detection under `featB` returns the four keypoints for haystack
and needle after a single loop iteration, with unit zoom factors. -/
theorem detect_features_featB (hg ng : Img) :
    detect_features featB eqF 1 hg ng = some (.ok (kpl4, kpl4)) := by
  unfold detect_features
  rw [detectLoop_step featB eqF 0 _ _ (Or.inl (by norm_num)) (detectBody_featB _),
      detectLoop_exit featB eqF 0 _ (by simp [detectCond, kpl4])]
  simp [scaleKp_one_eq_id]

/-- Descriptor matching under `featB`: the four one-to-one pairs give
back the four keypoints on each side and matched ratio `4/4 = 1`. -/
theorem match_features_featB :
    match_features featB eqF kpl4 kpl4 = .ok (kpl4, kpl4, 1) := by
  unfold match_features
  rw [if_pos (show eqF.fmatch = "in-house" ∨ eqF.fmatch ∈ eqF.feature_matchers
    from Or.inl rfl)]
  show Except.ok
    (([(0, 0), (1, 1), (2, 2), (3, 3)] : List (ℕ × ℕ)).map
       (fun pr => kpl4.getD pr.2 ⟨0, (0, 0)⟩),
     ([(0, 0), (1, 1), (2, 2), (3, 3)] : List (ℕ × ℕ)).map
       (fun pr => kpl4.getD pr.1 ⟨0, (0, 0)⟩),
     (((([(0, 0), (1, 1), (2, 2), (3, 3)] : List (ℕ × ℕ)).map
       (fun pr => kpl4.getD pr.1 ⟨0, (0, 0)⟩)).length : ℚ) / ((kpl4.length : ℚ))))
    = Except.ok (kpl4, kpl4, 1)
  have hm1 : ([(0, 0), (1, 1), (2, 2), (3, 3)] : List (ℕ × ℕ)).map
      (fun pr => kpl4.getD pr.2 ⟨0, (0, 0)⟩) = kpl4 := by decide
  have hm2 : ([(0, 0), (1, 1), (2, 2), (3, 3)] : List (ℕ × ℕ)).map
      (fun pr => kpl4.getD pr.1 ⟨0, (0, 0)⟩) = kpl4 := by decide
  rw [hm1, hm2]
  have hq : ((kpl4.length : ℚ)) / ((kpl4.length : ℚ)) = 1 := by norm_num [kpl4]
  rw [hq]

/-- Projection under `featB`: the mask `[1, 1, 1, 0]` yields 3 counted
inliers out of 4 pairs, similarity `3/4`, at the projected `(9, 7)`. -/
theorem project_featB (needle : Img) :
    project_needle_center featB needle kpl4 kpl4 = (3 / 4, (9, 7)) := by
  have htot : (kpl4.foldl
      (fun t kp => if [1, 1, 1, 0].getD (kpl4.indexOf kp) 0 = 1 then t + 1 else t)
      0 : ℕ) = 3 := by decide
  simp only [project_needle_center, featB, trivB]
  rw [htot]
  norm_num [pyInt, kpl4]

/-- C6 (counterexample): with four matched pairs of which only three
are homography inliers (mask `[1, 1, 1, 0]`), `find_features` still
returns a match — similarity `3/4` at the projected center — because
no inlier-count floor is checked after homography estimation; the
claim requires a no-match result whenever fewer than 4 geometrically
consistent pairs exist. -/
theorem c6_counterexample :
    find_features featB eqF 1 img2 ndC5 0
      = some (.ok (some (((9 : ℤ), (7 : ℤ)), 3 / 4))) ∧
    ([1, 1, 1, 0].count 1) = 3 ∧ (3 : ℕ) < 4 := by
  refine ⟨?_, by decide, by decide⟩
  have hmat := match_features_featB
  have hproj := project_featB ndC5
  unfold find_features
  rw [detect_features_featB]
  show some (featPipeline featB eqF 0 ndC5 kpl4 kpl4) = _
  unfold featPipeline
  rw [if_neg (by decide), hmat]
  show some (if (1 : ℚ) < 0 ∨ kpl4.length < 4 then Except.ok none
      else
        let pr := project_needle_center featB ndC5 kpl4 kpl4
        if pr.1 < 0 then Except.ok none
        else Except.ok (some (pr.2, pr.1))) = _
  rw [if_neg (by norm_num [kpl4])]
  show some (if (project_needle_center featB ndC5 kpl4 kpl4).1 < 0
      then Except.ok none
      else Except.ok (some ((project_needle_center featB ndC5 kpl4 kpl4).2,
                            (project_needle_center featB ndC5 kpl4 kpl4).1))) = _
  rw [hproj]
  norm_num

/-- C6 (amended): whenever detection completes with fewer than 4
needle or haystack keypoints, or descriptor matching leaves fewer than
4 matched pairs, `find_features` returns `None` without raising; but
fewer than 4 *inliers* does not by itself force a no-match — after
homography estimation only the inlier-ratio threshold is checked. -/
theorem c6_shortage_returns_none (B : Backend) (eq : Equalizer) (fuel : ℕ)
    (haystack needle : Img) (s : ℚ) {hkp nkp mhkp mnkp : List Keypoint} {sim1 : ℚ}
    (hdet : detect_features B eq fuel (B.gray haystack) (B.gray needle)
      = some (.ok (hkp, nkp)))
    (hmat : match_features B eq hkp nkp = .ok (mhkp, mnkp, sim1))
    (hcase : nkp.length < 4 ∨ hkp.length < 4 ∨ mnkp.length < 4) :
    find_features B eq fuel haystack needle s = some (.ok none) := by
  unfold find_features
  rw [hdet]
  show some (featPipeline B eq s needle hkp nkp) = _
  unfold featPipeline
  by_cases hshort : nkp.length < 4 ∨ hkp.length < 4
  · rw [if_pos hshort]
  · have hmn : mnkp.length < 4 := by
      rcases hcase with h | h | h
      · exact absurd (Or.inl h) hshort
      · exact absurd (Or.inr h) hshort
      · exact h
    rw [if_neg hshort, hmat]
    show some (if sim1 < s ∨ mnkp.length < 4 then (Except.ok none) else _) = _
    rw [if_pos (Or.inr hmn)]

/-- `featB` with only three matched pairs. -/
def featB3 : Backend :=
  { featB with matchIdx := fun _ _ _ => [(0, 0), (1, 1), (2, 2)] }

/-- C6 (witness for the amended theorem): three matched pairs make
`find_features` return `None` without an exception. -/
theorem c6_shortage_returns_none_witness :
    find_features featB3 eqF 1 img2 ndC5 0 = some (.ok none) :=
  c6_shortage_returns_none featB3 eqF 1 img2 ndC5 0 rfl rfl
    (Or.inr (Or.inr (by decide)))

/-! ## C7: monotonicity of `find_all` in the similarity threshold -/

/-- The suppression loop obeys its defining step equation. -/
theorem find_all_loop_succ (tm : String) (nw nh resW resH : ℕ) (s : ℚ)
    (fuel : ℕ) (R : Surface) (acc : List Location) :
    find_all_loop tm nw nh resW resH s (fuel + 1) R acc =
      if flipVal tm (minMaxLoc R) < s then some acc
      else find_all_loop tm nw nh resW resH s fuel
        (zeroWindow R (flipLoc tm (minMaxLoc R)) (nw / 2) (nh / 2) resW resH)
        (acc ++ [(((flipLoc tm (minMaxLoc R)).1 : ℤ),
                  ((flipLoc tm (minMaxLoc R)).2 : ℤ))]) := rfl

/-- The suppression loop only ever appends to its accumulator. -/
theorem find_all_loop_acc_le (tm : String) (nw nh resW resH : ℕ) (s : ℚ) :
    ∀ (fuel : ℕ) (R : Surface) (acc l : List Location),
      find_all_loop tm nw nh resW resH s fuel R acc = some l →
      acc.length ≤ l.length := by
  intro fuel
  induction fuel with
  | zero => intro R acc l h; simp [find_all_loop] at h
  | succ f ih =>
    intro R acc l h
    rw [find_all_loop_succ] at h
    by_cases hv : flipVal tm (minMaxLoc R) < s
    · rw [if_pos hv] at h
      cases h
      exact le_refl _
    · rw [if_neg hv] at h
      exact le_trans (by simp) (ih _ _ _ h)

/-- The candidate count of the suppression loop is antitone in the
required similarity: the wiping schedule does not depend on the
threshold, only the stopping test does. -/
theorem find_all_loop_antitone (tm : String) (nw nh resW resH : ℕ)
    (s1 s2 : ℚ) (hs : s1 ≤ s2) :
    ∀ (fuel : ℕ) (R : Surface) (acc l1 l2 : List Location),
      find_all_loop tm nw nh resW resH s1 fuel R acc = some l1 →
      find_all_loop tm nw nh resW resH s2 fuel R acc = some l2 →
      l2.length ≤ l1.length := by
  intro fuel
  induction fuel with
  | zero => intro R acc l1 l2 h1 h2; simp [find_all_loop] at h1
  | succ f ih =>
    intro R acc l1 l2 h1 h2
    rw [find_all_loop_succ] at h1 h2
    by_cases hv1 : flipVal tm (minMaxLoc R) < s1
    · rw [if_pos hv1] at h1
      rw [if_pos (lt_of_lt_of_le hv1 hs)] at h2
      cases h1; cases h2
      exact le_refl _
    · rw [if_neg hv1] at h1
      by_cases hv2 : flipVal tm (minMaxLoc R) < s2
      · rw [if_pos hv2] at h2
        cases h2
        exact le_trans (by simp)
          (find_all_loop_acc_le tm nw nh resW resH s1 f _ _ _ h1)
      · rw [if_neg hv2] at h2
        exact ih _ _ _ _ h1 h2

/-- C7: for a fixed haystack, needle, backend and configuration, when
two `find_all` runs complete, the run with the higher required
similarity returns at most as many candidates as the one with the
lower requirement. -/
theorem c7_find_all_candidate_count_antitone (B : Backend) (eq : Equalizer)
    (fuel : ℕ) (haystack needle : Img) (s1 s2 : ℚ) (nocolor : Bool)
    (l1 l2 : List Location) (hs : s1 ≤ s2)
    (h1 : find_all B eq fuel haystack needle s1 nocolor = some (.ok l1))
    (h2 : find_all B eq fuel haystack needle s2 nocolor = some (.ok l2)) :
    l2.length ≤ l1.length := by
  unfold find_all at h1 h2
  by_cases hmem : eq.tmatch ∉ template_matchers
  · rw [if_pos hmem] at h1
    simp at h1
  · rw [if_neg hmem] at h1 h2
    rcases hmt : match_template B haystack needle nocolor (effectiveTM eq.tmatch)
      with e | os
    · rw [hmt] at h1; simp at h1
    · rcases os with _ | R
      · rw [hmt] at h1; simp at h1
      · rw [hmt] at h1 h2
        have h1' : (find_all_loop eq.tmatch needle.width needle.height
            (haystack.width - needle.width + 1) (haystack.height - needle.height + 1)
            s1 fuel R []).map Except.ok = some (.ok l1) := h1
        have h2' : (find_all_loop eq.tmatch needle.width needle.height
            (haystack.width - needle.width + 1) (haystack.height - needle.height + 1)
            s2 fuel R []).map Except.ok = some (.ok l2) := h2
        rcases hx1 : find_all_loop eq.tmatch needle.width needle.height
            (haystack.width - needle.width + 1) (haystack.height - needle.height + 1)
            s1 fuel R [] with _ | x1
        · rw [hx1] at h1'; simp at h1'
        · rcases hx2 : find_all_loop eq.tmatch needle.width needle.height
              (haystack.width - needle.width + 1) (haystack.height - needle.height + 1)
              s2 fuel R [] with _ | x2
          · rw [hx2] at h2'; simp at h2'
          · rw [hx1] at h1'; rw [hx2] at h2'
            simp at h1' h2'
            subst h1'; subst h2'
            exact find_all_loop_antitone eq.tmatch needle.width needle.height
              _ _ s1 s2 hs fuel R [] _ _ hx1 hx2

/-- C7 (witness): on a concrete run the count at threshold 2 (zero
candidates) is at most the count at threshold 1 (one candidate). -/
theorem c7_find_all_candidate_count_antitone_witness :
    (([] : List Location)).length ≤
      ([((0 : ℤ), (0 : ℤ))] : List Location).length :=
  c7_find_all_candidate_count_antitone oneB { eqBase with tmatch := "ccorr" }
    3 img2 img2 1 2 true [((0 : ℤ), (0 : ℤ))] [] (by norm_num) rfl rfl

/-! ## C10: termination of the suppression loop -/

/-- Pointwise-dominated boolean counts with one strict disagreement:
the dominated count is strictly smaller. -/
theorem countP_lt_of_strict {α : Type} (l : List α) (P Q : α → Bool)
    (hmono : ∀ a ∈ l, Q a = true → P a = true) (a : α) (ha : a ∈ l)
    (hP : P a = true) (hQ : Q a = false) :
    l.countP Q < l.countP P := by
  induction l with
  | nil => cases ha
  | cons b t ih =>
    rw [List.countP_cons, List.countP_cons]
    have hmono' : ∀ x ∈ t, Q x = true → P x = true :=
      fun x hx => hmono x (List.mem_cons_of_mem _ hx)
    rcases List.mem_cons.mp ha with rfl | hat
    · have hle : t.countP Q ≤ t.countP P := List.countP_mono_left hmono'
      rw [hP, hQ]
      simp
      omega
    · have hbt : (if Q b = true then 1 else 0) ≤ (if P b = true then 1 else 0) := by
        by_cases hq : Q b = true
        · rw [if_pos hq, if_pos (hmono b (List.mem_cons_self b t) hq)]
        · rw [if_neg hq]
          omega
      have := ih hmono' hat
      omega

/-- Wiping a window never lifts a cell to or above a positive
threshold. -/
theorem zeroWindow_mono (R : Surface) (L : TLoc) (hw hh resW resH : ℕ)
    (s : ℚ) (hs : 0 < s) (p : TLoc)
    (h : s ≤ (zeroWindow R L hw hh resW resH).val p.2 p.1) :
    s ≤ R.val p.2 p.1 := by
  by_cases hc : L.1 - hw ≤ p.1 ∧ p.1 < min (L.1 + hw) resW ∧
      L.2 - hh ≤ p.2 ∧ p.2 < min (L.2 + hh) resH
  · rw [show (zeroWindow R L hw hh resW resH).val p.2 p.1 = 0 from if_pos hc] at h
    exact absurd (lt_of_le_of_lt h hs) (lt_irrefl s)
  · rwa [show (zeroWindow R L hw hh resW resH).val p.2 p.1 = R.val p.2 p.1
      from if_neg hc] at h

/-- Each non-stopping iteration of the suppression loop strictly
decreases the number of surface cells at or above the threshold; hence
`countGE R s + 1` units of fuel suffice. -/
theorem find_all_loop_term_aux (tm : String) (nw nh : ℕ) (s : ℚ)
    (h1 : tm ≠ "sqdiff") (h2 : tm ≠ "sqdiff_normed") (hs : 0 < s)
    (hnw : 2 ≤ nw) (hnh : 2 ≤ nh) :
    ∀ (n : ℕ) (R : Surface) (acc : List Location), 1 ≤ R.w → 1 ≤ R.h →
      countGE R s ≤ n →
      ∃ l, find_all_loop tm nw nh R.w R.h s (n + 1) R acc = some l := by
  intro n
  induction n with
  | zero =>
    intro R acc hw hh hc
    rcases bestMax_spec R hw hh with ⟨hmem, hval, _⟩
    have hvlt : flipVal tm (minMaxLoc R) < s := by
      rw [flipVal_of_ne tm _ h1 h2]
      show (bestMax R).1 < s
      by_contra hge
      push_neg at hge
      have hpos : 0 < (coords R.w R.h).countP
          (fun p => decide (s ≤ R.val p.2 p.1)) := by
        rw [List.countP_pos_iff]
        exact ⟨(bestMax R).2, hmem, decide_eq_true (hval ▸ hge)⟩
      have : countGE R s = 0 := Nat.le_zero.mp hc
      rw [countGE] at this
      omega
    rw [find_all_loop_succ, if_pos hvlt]
    exact ⟨acc, rfl⟩
  | succ m ih =>
    intro R acc hw hh hc
    by_cases hvlt : flipVal tm (minMaxLoc R) < s
    · rw [find_all_loop_succ, if_pos hvlt]
      exact ⟨acc, rfl⟩
    · rw [find_all_loop_succ, if_neg hvlt, flipLoc_of_ne tm _ h1 h2]
      rcases bestMax_spec R hw hh with ⟨hmem, hval, _⟩
      rw [flipVal_of_ne tm _ h1 h2] at hvlt
      have hsle : s ≤ R.val (bestMax R).2.2 (bestMax R).2.1 := by
        rw [hval]
        exact not_lt.mp hvlt
      have hLx : (bestMax R).2.1 < R.w := (mem_coords.mp hmem).1
      have hLy : (bestMax R).2.2 < R.h := (mem_coords.mp hmem).2
      have hwin : (bestMax R).2.1 - nw / 2 ≤ (bestMax R).2.1 ∧
          (bestMax R).2.1 < min ((bestMax R).2.1 + nw / 2) R.w ∧
          (bestMax R).2.2 - nh / 2 ≤ (bestMax R).2.2 ∧
          (bestMax R).2.2 < min ((bestMax R).2.2 + nh / 2) R.h := by
        refine ⟨Nat.sub_le _ _, ?_, Nat.sub_le _ _, ?_⟩ <;> omega
      have hdec : countGE (zeroWindow R ((minMaxLoc R).2.2.2) (nw / 2) (nh / 2)
          R.w R.h) s < countGE R s := by
        show (coords R.w R.h).countP
            (fun p => decide (s ≤ (zeroWindow R ((minMaxLoc R).2.2.2) (nw / 2)
              (nh / 2) R.w R.h).val p.2 p.1)) <
          (coords R.w R.h).countP (fun p => decide (s ≤ R.val p.2 p.1))
        apply countP_lt_of_strict _ _ _ ?_ (bestMax R).2 hmem
          (decide_eq_true hsle) ?_
        · intro p hp hq
          exact decide_eq_true
            (zeroWindow_mono R _ _ _ _ _ s hs p (of_decide_eq_true hq))
        · apply decide_eq_false
          rw [show (zeroWindow R ((minMaxLoc R).2.2.2) (nw / 2) (nh / 2)
              R.w R.h).val (bestMax R).2.2 (bestMax R).2.1 = 0 from if_pos hwin]
          exact not_le.mpr hs
      obtain ⟨l, hl⟩ := ih (zeroWindow R ((minMaxLoc R).2.2.2) (nw / 2) (nh / 2)
          R.w R.h)
        (acc ++ [((((minMaxLoc R).2.2.2).1 : ℤ), (((minMaxLoc R).2.2.2).2 : ℤ))])
        hw hh (by omega)
      exact ⟨l, hl⟩

/-- C10 (counterexample): with the `sqdiff` method the loop's stopping
value is `1 - minVal`; wiping writes zeros, which keeps the minimum at
zero, so once a zero cell exists (here: a 2×2 needle matching its 2×2
haystack exactly, similarity 1 > 0) the loop never terminates, for any
fuel — refuting the claim for sqdiff-configured calls. -/
theorem c10_counterexample :
    ¬ ∃ fuel l, find_all trivB eqSq fuel img2 img2 1 true = some (.ok l) := by
  have hval0 : ∀ (R : Surface), R.w = 1 → R.h = 1 → R.val 0 0 = 0 →
      ∀ (fuel : ℕ) (acc : List Location),
        find_all_loop "sqdiff" 2 2 1 1 1 fuel R acc = none := by
    intro R hw hh hv fuel
    induction fuel generalizing R with
    | zero => intro acc; rfl
    | succ f ih =>
      intro acc
      have hbm : bestMin R = (0, (0, 0)) := by
        unfold bestMin
        rw [hw, hh]
        show (if R.val 0 0 < R.val 0 0 then (R.val 0 0, ((0 : ℕ), (0 : ℕ)))
          else (R.val 0 0, (0, 0))) = _
        rw [if_neg (lt_irrefl _), hv]
      have hfv : flipVal "sqdiff" (minMaxLoc R) = 1 := by
        rw [flipVal_sqdiff]
        show 1 - (bestMin R).1 = 1
        rw [hbm]
        norm_num
      have hfL : flipLoc "sqdiff" (minMaxLoc R) = (0, 0) := by
        rw [flipLoc_sqdiff]
        show (bestMin R).2 = (0, 0)
        rw [hbm]
      rw [find_all_loop_succ, hfv, if_neg (by norm_num), hfL]
      apply ih
      · exact hw
      · exact hh
      · show (if (0 : ℕ) - 2 / 2 ≤ 0 ∧ 0 < min (0 + 2 / 2) 1 ∧
            (0 : ℕ) - 2 / 2 ≤ 0 ∧ 0 < min (0 + 2 / 2) 1 then (0 : ℚ)
          else R.val 0 0) = 0
        rw [if_pos (by omega)]
  rintro ⟨fuel, l, hl⟩
  unfold find_all at hl
  rw [if_neg (not_not_intro (show eqSq.tmatch ∈ template_matchers by decide))] at hl
  have hmt : match_template trivB img2 img2 true (effectiveTM eqSq.tmatch)
      = .ok (some (sqdiffSurface img2 img2)) := rfl
  rw [hmt] at hl
  have hl' : (find_all_loop "sqdiff" 2 2 1 1 1 fuel
      (sqdiffSurface img2 img2) []).map Except.ok = some (.ok l) := hl
  rw [hval0 (sqdiffSurface img2 img2) rfl rfl
    (by norm_num [sqdiffSurface, ssd, coords, img2]) fuel []] at hl'
  simp at hl'

/-- C10 (amended): for every non-sqdiff template method, required
similarity strictly above 0 and needle at least 2×2, the iterative
maximum-suppression loop of `find_all` terminates with a finite
candidate list within `countGE R s + 1` iterations: each round wipes a
non-empty window containing the current peak, strictly decreasing the
number of surface cells at or above the threshold.  (For the sqdiff
family the flipped score `1 - minVal` is pinned at 1 by the wipe and
the loop diverges.) -/
theorem c10_suppression_terminates (tm : String) (nw nh : ℕ) (s : ℚ)
    (R : Surface) (acc : List Location)
    (h1 : tm ≠ "sqdiff") (h2 : tm ≠ "sqdiff_normed") (hs : 0 < s)
    (hnw : 2 ≤ nw) (hnh : 2 ≤ nh) (hw : 1 ≤ R.w) (hh : 1 ≤ R.h) :
    ∃ l, find_all_loop tm nw nh R.w R.h s (countGE R s + 1) R acc = some l :=
  find_all_loop_term_aux tm nw nh s h1 h2 hs hnw hnh (countGE R s) R acc
    hw hh (le_refl _)

/-- C10 (witness for the amended theorem) on a concrete 1×1 surface. -/
theorem c10_suppression_terminates_witness :
    ∃ l, find_all_loop "ccorr" 2 2 oneSurf.w oneSurf.h 1
      (countGE oneSurf 1 + 1) oneSurf [] = some l :=
  c10_suppression_terminates "ccorr" 2 2 1 oneSurf [] (by decide) (by decide)
    (by decide) (by decide) (by decide) (by decide) (by decide)

/-! ## C8: the hybrid score grid and location table -/

theorem mem_tiles {nx ny : ℕ} {t : ℕ × ℕ} :
    t ∈ tiles nx ny ↔ t.1 < nx ∧ t.2 < ny := by
  constructor
  · intro ht
    rcases List.mem_flatMap.mp ht with ⟨i, hi, hj⟩
    rcases List.mem_map.mp hj with ⟨j, hj', rfl⟩
    exact ⟨List.mem_range.mp hi, List.mem_range.mp hj'⟩
  · intro ⟨h1, h2⟩
    exact List.mem_flatMap.mpr ⟨t.1, List.mem_range.mpr h1,
      List.mem_map.mpr ⟨t.2, List.mem_range.mpr h2, rfl⟩⟩

theorem tiles_nodup (nx ny : ℕ) : (tiles nx ny).Nodup := by
  apply List.nodup_flatMap.mpr
  constructor
  · intro i _
    exact (List.nodup_range _).map (fun a b hab => congrArg Prod.snd hab)
  · apply List.Pairwise.imp ?_ (List.nodup_range nx)
    intro a b hab
    intro p hpa hpb
    rcases List.mem_map.mp hpa with ⟨j1, _, rfl⟩
    rcases List.mem_map.mp hpb with ⟨j2, _, h2⟩
    exact hab (congrArg Prod.fst h2.symm)

/-- Folding the hybrid step over any tile list from the dead state
`none` stays dead. -/
theorem hybridFold_none (B : Backend) (eq : Equalizer) (fuel : ℕ)
    (ngray needle : Img) (s : ℚ) (hgray : Img) (W H x y dx dy : ℕ) :
    ∀ L : List (ℕ × ℕ),
      L.foldl (hybridStep B eq fuel ngray needle s hgray W H x y dx dy) none
        = none := by
  intro L
  induction L with
  | nil => rfl
  | cons t T ih => rw [List.foldl_cons]; exact ih

/-- Folding the hybrid step from an error state keeps the error. -/
theorem hybridFold_err (B : Backend) (eq : Equalizer) (fuel : ℕ)
    (ngray needle : Img) (s : ℚ) (hgray : Img) (W H x y dx dy : ℕ) (e : Err) :
    ∀ L : List (ℕ × ℕ),
      L.foldl (hybridStep B eq fuel ngray needle s hgray W H x y dx dy)
        (some (.error e)) = some (.error e) := by
  intro L
  induction L with
  | nil => rfl
  | cons t T ih => rw [List.foldl_cons]; exact ih

/-- Evaluation of a successful hybrid step: the tile's score is
written to the pre-assigned grid cell and, when the tile produced a
local match point, the translated global point is recorded under the
tile's key. -/
theorem hybridStep_ok_eval (B : Backend) (eq : Equalizer) (fuel : ℕ)
    (ngray needle : Img) (s : ℚ) (hgray : Img) (W H x y dx dy : ℕ)
    (t : ℕ × ℕ) (g0 : Grid) (l0 : Locs) (v : ℚ) (optc : Option (ℤ × ℤ))
    (hte : tileEval B eq fuel ngray needle s
        (subImg hgray (t.2 * dy) (min H (t.2 * dy + y)) (t.1 * dx)
          (min W (t.1 * dx + x))) = some (.ok (v, optc))) :
    hybridStep B eq fuel ngray needle s hgray W H x y dx dy
        (some (.ok (g0, l0))) t
      = some (.ok (updGrid g0 t.2 t.1 v,
          match optc with
          | some c => updLocs l0 t.2 t.1
              (((t.1 * dx : ℕ) : ℤ) + c.1, ((t.2 * dy : ℕ) : ℤ) + c.2)
          | none => l0)) := by
  rcases optc with _ | c
  · show (match tileEval B eq fuel ngray needle s
        (subImg hgray (t.2 * dy) (min H (t.2 * dy + y)) (t.1 * dx)
          (min W (t.1 * dx + x))) with
      | none => none
      | some (Except.error e) => some (Except.error e)
      | some (Except.ok (v, optc)) =>
        some (Except.ok (updGrid g0 t.2 t.1 v,
          match optc with
          | some c => updLocs l0 t.2 t.1
              (((t.1 * dx : ℕ) : ℤ) + c.1, ((t.2 * dy : ℕ) : ℤ) + c.2)
          | none => l0)))
      = some (Except.ok (updGrid g0 t.2 t.1 v, l0))
    rw [hte]
  · show (match tileEval B eq fuel ngray needle s
        (subImg hgray (t.2 * dy) (min H (t.2 * dy + y)) (t.1 * dx)
          (min W (t.1 * dx + x))) with
      | none => none
      | some (Except.error e) => some (Except.error e)
      | some (Except.ok (v, optc)) =>
        some (Except.ok (updGrid g0 t.2 t.1 v,
          match optc with
          | some c => updLocs l0 t.2 t.1
              (((t.1 * dx : ℕ) : ℤ) + c.1, ((t.2 * dy : ℕ) : ℤ) + c.2)
          | none => l0)))
      = some (Except.ok (updGrid g0 t.2 t.1 v, updLocs l0 t.2 t.1
          (((t.1 * dx : ℕ) : ℤ) + c.1, ((t.2 * dy : ℕ) : ℤ) + c.2)))
    rw [hte]

/-- A successful hybrid step at a tile other than `(i, j)` leaves the
grid cell `(j, i)` and the location entry `(j, i)` untouched. -/
theorem hybridStep_ok_ne (B : Backend) (eq : Equalizer) (fuel : ℕ)
    (ngray needle : Img) (s : ℚ) (hgray : Img) (W H x y dx dy : ℕ)
    (i j : ℕ) (t : ℕ × ℕ) (hne : t ≠ (i, j)) (g0 : Grid) (l0 : Locs)
    (g1 : Grid) (l1 : Locs)
    (h : hybridStep B eq fuel ngray needle s hgray W H x y dx dy
        (some (.ok (g0, l0))) t = some (.ok (g1, l1))) :
    g1 j i = g0 j i ∧ l1 (j, i) = l0 (j, i) := by
  have h' : (match tileEval B eq fuel ngray needle s
      (subImg hgray (t.2 * dy) (min H (t.2 * dy + y)) (t.1 * dx)
        (min W (t.1 * dx + x))) with
    | none => none
    | some (Except.error e) => some (Except.error e)
    | some (Except.ok (v, optc)) =>
      some (Except.ok (updGrid g0 t.2 t.1 v,
        match optc with
        | some c => updLocs l0 t.2 t.1
            (((t.1 * dx : ℕ) : ℤ) + c.1, ((t.2 * dy : ℕ) : ℤ) + c.2)
        | none => l0))) = some (Except.ok (g1, l1)) := h
  rcases hte : tileEval B eq fuel ngray needle s
      (subImg hgray (t.2 * dy) (min H (t.2 * dy + y)) (t.1 * dx)
        (min W (t.1 * dx + x))) with _ | est
  · rw [hte] at h'; cases h'
  · rcases est with e | vc
    · rw [hte] at h'; cases h'
    · rcases vc with ⟨v, optc⟩
      rw [hte] at h'
      obtain ⟨hg, hl⟩ := Prod.mk.injEq .. ▸ Except.ok.inj (Option.some.inj h')
      have hti : ¬ (j = t.2 ∧ i = t.1) := by
        intro ⟨ha, hb⟩
        exact hne (Prod.ext hb.symm ha.symm)
      constructor
      · rw [← hg]
        exact if_neg hti
      · rw [← hl]
        rcases optc with _ | c
        · rfl
        · show updLocs l0 t.2 t.1 _ (j, i) = l0 (j, i)
          unfold updLocs
          rw [if_neg (by
            intro hk
            rcases Prod.mk.injEq .. ▸ hk with ⟨ha, hb⟩
            exact hne (Prod.ext hb.symm ha.symm))]

/-- Folding the hybrid step over tiles avoiding `(i, j)` preserves the
grid cell `(j, i)` and the location entry `(j, i)`. -/
theorem hybridFold_preserve (B : Backend) (eq : Equalizer) (fuel : ℕ)
    (ngray needle : Img) (s : ℚ) (hgray : Img) (W H x y dx dy : ℕ)
    (i j : ℕ) :
    ∀ (L : List (ℕ × ℕ)), (i, j) ∉ L →
    ∀ (g0 : Grid) (l0 : Locs) (g : Grid) (l : Locs),
      L.foldl (hybridStep B eq fuel ngray needle s hgray W H x y dx dy)
        (some (.ok (g0, l0))) = some (.ok (g, l)) →
      g j i = g0 j i ∧ l (j, i) = l0 (j, i) := by
  intro L
  induction L with
  | nil =>
    intro _ g0 l0 g l h
    obtain ⟨h1, h2⟩ := Prod.mk.injEq .. ▸ Except.ok.inj (Option.some.inj h)
    exact ⟨h1 ▸ rfl, h2 ▸ rfl⟩
  | cons t T ih =>
    intro hnotin g0 l0 g l h
    rw [List.foldl_cons] at h
    rcases hstep : hybridStep B eq fuel ngray needle s hgray W H x y dx dy
        (some (.ok (g0, l0))) t with _ | est
    · rw [hstep, hybridFold_none] at h; cases h
    · rcases est with e | gl1
      · rw [hstep, hybridFold_err] at h; cases h
      · rcases gl1 with ⟨g1, l1⟩
        rw [hstep] at h
        have hne : t ≠ (i, j) := fun he => hnotin (he ▸ List.mem_cons_self t T)
        obtain ⟨hg, hl⟩ := hybridStep_ok_ne B eq fuel ngray needle s hgray
          W H x y dx dy i j t hne g0 l0 g1 l1 hstep
        obtain ⟨hg', hl'⟩ := ih (fun hm => hnotin (List.mem_cons_of_mem _ hm))
          g1 l1 g l h
        exact ⟨hg'.trans hg, hl'.trans hl⟩

/-- C8: for every in-range tile `(i, j)` of the hybrid search grid, a
completed `find_hybrid` run records that tile's feature-matching score
at the pre-assigned cell `result[j][i]`, and the location table entry
for that tile — present exactly when the tile cleared the threshold —
is the tile-local match point translated by the tile's global offset
(left edge `i·dx` added to x, top edge `j·dy` added to y). -/
theorem c8_hybrid_grid_and_locations (B : Backend) (eq : Equalizer)
    (fuel : ℕ) (haystack needle : Img) (s : ℚ) (x y dx dy i j : ℕ)
    (grid : Grid) (locs : Locs) (v : ℚ) (optc : Option (ℤ × ℤ))
    (hi : i < pyCeilDiv (haystack.width - x) (min dx haystack.width) + 1)
    (hj : j < pyCeilDiv (haystack.height - y) (min dy haystack.height) + 1)
    (hrun : find_hybrid B eq fuel haystack needle s x y dx dy
      = some (.ok (grid, locs)))
    (htile : tileEval B eq fuel (B.gray needle) needle s
        (subImg (B.gray haystack) (j * min dy haystack.height)
          (min haystack.height (j * min dy haystack.height + y))
          (i * min dx haystack.width)
          (min haystack.width (i * min dx haystack.width + x)))
      = some (.ok (v, optc))) :
    grid j i = v ∧
    locs (j, i) = optc.map (fun c =>
      (((i * min dx haystack.width : ℕ) : ℤ) + c.1,
       ((j * min dy haystack.height : ℕ) : ℤ) + c.2)) := by
  have hmem : (i, j) ∈ tiles
      (pyCeilDiv (haystack.width - x) (min dx haystack.width) + 1)
      (pyCeilDiv (haystack.height - y) (min dy haystack.height) + 1) :=
    mem_tiles.mpr ⟨hi, hj⟩
  obtain ⟨T1, T2, hsplit⟩ := List.append_of_mem hmem
  have hnodup := tiles_nodup
    (pyCeilDiv (haystack.width - x) (min dx haystack.width) + 1)
    (pyCeilDiv (haystack.height - y) (min dy haystack.height) + 1)
  rw [hsplit] at hnodup
  have hd := List.nodup_append.mp hnodup
  have hnotinT1 : (i, j) ∉ T1 := fun hm =>
    (List.disjoint_left.mp hd.2.2) hm (List.mem_cons_self _ _)
  have hnotinT2 : (i, j) ∉ T2 := (List.nodup_cons.mp hd.2.1).1
  unfold find_hybrid at hrun
  rw [hsplit, List.foldl_append, List.foldl_cons] at hrun
  rcases h1 : T1.foldl (hybridStep B eq fuel (B.gray needle) needle s
      (B.gray haystack) haystack.width haystack.height x y
      (min dx haystack.width) (min dy haystack.height))
      (some (.ok (fun _ _ => 0, fun _ => none))) with _ | est1
  · rw [h1] at hrun
    rw [show hybridStep B eq fuel (B.gray needle) needle s (B.gray haystack)
        haystack.width haystack.height x y (min dx haystack.width)
        (min dy haystack.height) none (i, j) = none from rfl,
      hybridFold_none] at hrun
    cases hrun
  · rcases est1 with e | gl1
    · rw [h1] at hrun
      rw [show hybridStep B eq fuel (B.gray needle) needle s (B.gray haystack)
          haystack.width haystack.height x y (min dx haystack.width)
          (min dy haystack.height) (some (.error e)) (i, j)
          = some (.error e) from rfl, hybridFold_err] at hrun
      cases hrun
    · rcases gl1 with ⟨g1, l1⟩
      rw [h1] at hrun
      obtain ⟨hg1, hl1⟩ := hybridFold_preserve B eq fuel (B.gray needle) needle
        s (B.gray haystack) haystack.width haystack.height x y
        (min dx haystack.width) (min dy haystack.height) i j T1 hnotinT1
        _ _ _ _ h1
      have hstep := hybridStep_ok_eval B eq fuel (B.gray needle) needle s
        (B.gray haystack) haystack.width haystack.height x y
        (min dx haystack.width) (min dy haystack.height) (i, j) g1 l1 v optc
        htile
      rw [hstep] at hrun
      obtain ⟨hg2, hl2⟩ := hybridFold_preserve B eq fuel (B.gray needle) needle
        s (B.gray haystack) haystack.width haystack.height x y
        (min dx haystack.width) (min dy haystack.height) i j T2 hnotinT2
        _ _ _ _ hrun
      constructor
      · rw [hg2]
        show updGrid g1 j i v j i = v
        unfold updGrid
        rw [if_pos ⟨rfl, rfl⟩]
      · rw [hl2]
        rcases optc with _ | c
        · show l1 (j, i) = none
          rw [hl1]
        · show updLocs l1 j i _ (j, i) = _
          unfold updLocs
          rw [if_pos rfl]
          rfl

/-- Every tile evaluated under `featB` scores `3/4` and yields the
tile-local point `(9, 7)` at required similarity 0. -/
theorem tileEval_featB (ngray needle hregion : Img) :
    tileEval featB eqF 1 ngray needle 0 hregion
      = some (.ok (3 / 4, some ((9 : ℤ), (7 : ℤ)))) := by
  unfold tileEval
  rw [detect_features_featB]
  show (if kpl4.length < 4 ∨ kpl4.length < 4
      then some (Except.ok ((0 : ℚ), (none : Option (ℤ × ℤ))))
      else
        match match_features featB eqF kpl4 kpl4 with
        | Except.error e => some (Except.error e)
        | Except.ok (mhkp, mnkp, sim1) =>
          if sim1 < 0 ∨ mnkp.length < 4 then some (Except.ok (sim1, none))
          else
            let pr := project_needle_center featB needle mnkp mhkp
            some (Except.ok (pr.1, if pr.1 < 0 then none else some pr.2))) = _
  rw [if_neg (by decide), match_features_featB]
  show (if (1 : ℚ) < 0 ∨ kpl4.length < 4
      then some (Except.ok ((1 : ℚ), (none : Option (ℤ × ℤ))))
      else
        let pr := project_needle_center featB needle kpl4 kpl4
        some (Except.ok (pr.1, if pr.1 < 0 then none else some pr.2))) = _
  rw [if_neg (by norm_num [kpl4])]
  show some (Except.ok ((project_needle_center featB needle kpl4 kpl4).1,
      if (project_needle_center featB needle kpl4 kpl4).1 < 0 then none
      else some (project_needle_center featB needle kpl4 kpl4).2)) = _
  rw [project_featB]
  norm_num

/-- A 4×2 uniform haystack, split by `find_hybrid` into a 2×1 grid of
2×2 tiles for `x = y = dx = dy = 2`. -/
def hay8 : Img := ⟨4, 2, fun _ _ => 0⟩

/-- The score grid computed by the two-tile hybrid run on `hay8`. -/
def G8 : Grid :=
  updGrid (updGrid (fun _ _ => 0) ((0 : ℕ), (0 : ℕ)).2 ((0 : ℕ), (0 : ℕ)).1 (3 / 4))
    ((1 : ℕ), (0 : ℕ)).2 ((1 : ℕ), (0 : ℕ)).1 (3 / 4)

/-- The location table computed by the two-tile hybrid run on `hay8`. -/
def L8 : Locs :=
  updLocs (updLocs (fun _ => none) ((0 : ℕ), (0 : ℕ)).2 ((0 : ℕ), (0 : ℕ)).1
      (((((0 : ℕ), (0 : ℕ)).1 * 2 : ℕ) : ℤ) + 9,
       ((((0 : ℕ), (0 : ℕ)).2 * 2 : ℕ) : ℤ) + 7))
    ((1 : ℕ), (0 : ℕ)).2 ((1 : ℕ), (0 : ℕ)).1
      (((((1 : ℕ), (0 : ℕ)).1 * 2 : ℕ) : ℤ) + 9,
       ((((1 : ℕ), (0 : ℕ)).2 * 2 : ℕ) : ℤ) + 7)

/-- C8 (witness): on the concrete two-tile run, the claim theorem
recovers tile `(i, j) = (1, 0)`'s score `3/4` at grid cell
`result[0][1]` and its location `(2 + 9, 0 + 7) = (11, 7)` — the
tile-local point `(9, 7)` translated by the tile's global offset. -/
theorem c8_hybrid_grid_and_locations_witness :
    ∃ (grid : Grid) (locs : Locs),
      find_hybrid featB eqF 1 hay8 ndC5 0 2 2 2 2 = some (.ok (grid, locs)) ∧
      grid 0 1 = 3 / 4 ∧ locs (0, 1) = some ((11 : ℤ), (7 : ℤ)) := by
  have hrun : find_hybrid featB eqF 1 hay8 ndC5 0 2 2 2 2
      = some (.ok (G8, L8)) := by
    show ([((0 : ℕ), (0 : ℕ)), (1, 0)]).foldl
      (hybridStep featB eqF 1 (featB.gray ndC5) ndC5 0 (featB.gray hay8)
        4 2 2 2 2 2) (some (.ok (fun _ _ => 0, fun _ => none))) = _
    rw [List.foldl_cons,
        hybridStep_ok_eval featB eqF 1 (featB.gray ndC5) ndC5 0
          (featB.gray hay8) 4 2 2 2 2 2 (0, 0) _ _ _ _ (tileEval_featB _ _ _),
        List.foldl_cons, List.foldl_nil,
        hybridStep_ok_eval featB eqF 1 (featB.gray ndC5) ndC5 0
          (featB.gray hay8) 4 2 2 2 2 2 (1, 0) _ _ _ _ (tileEval_featB _ _ _)]
    rfl
  have hc := c8_hybrid_grid_and_locations featB eqF 1 hay8 ndC5 0 2 2 2 2 1 0
    G8 L8 (3 / 4) (some ((9 : ℤ), (7 : ℤ))) (by decide) (by decide) hrun
    (tileEval_featB _ _ _)
  refine ⟨G8, L8, hrun, hc.1, ?_⟩
  rw [hc.2]
  norm_num [hay8]

end Guibender
